import Mathlib

/-!
Verification development for the TinyDB in-memory relational engine.

The definitions below are a shallow embedding of the C++ sources:
`src/libcore/database/value.hpp`, `table.hpp/.cpp`, `condition.hpp/.cpp`,
`database.cpp`, `src/libcore/sql/lexer.cpp`, `parser.cpp`, and the statement
executor in `src/main.cpp`.  C++ exceptions are modelled with `Except String`
(the string is the exception message; single-quote characters that the C++
messages put around names are omitted from the Lean strings).  In-place
mutation of a `Table` is modelled by returning the post-call table next to
the call's `Except` outcome, so that a call that throws still reports the
state it left behind.  Token source positions (byte offset / line / column)
are diagnostic-only in the source and are not modelled.
-/

namespace TinyDB

/-- DataType from value.hpp: the two supported column types. -/
inductive DataType
  | int
  | str
deriving DecidableEq

/-- Value from value.hpp: `std::variant<int, std::string>`.  The `int`
alternative carries the C++ `int` payload; the 32-bit range of that type is
enforced at the only construction boundary that parses numbers (the lexer's
`std::stoi`, see `stoiDigits`). -/
inductive Value
  | intV (n : Int)
  | strV (s : String)
deriving DecidableEq

/-- Value::getType. -/
def Value.getType : Value → DataType
  | .intV _ => .int
  | .strV _ => .str

/-- Value::operator<=> from value.hpp lines 130-146: throws
"Cannot compare values of different types" when the tags differ, otherwise
compares within the alternative (integers numerically, strings
lexicographically). -/
def Value.spaceship : Value → Value → Except String Ordering
  | .intV a, .intV b => .ok (compare a b)
  | .strV a, .strV b => .ok (compare a b)
  | _, _ => .error "Cannot compare values of different types"

/-- Value::operator== from value.hpp lines 150-152: `data == other.data`,
plain `std::variant` equality.  Two values with different alternatives
compare unequal; no exception is thrown. -/
def Value.variantEq : Value → Value → Bool
  | .intV a, .intV b => a == b
  | .strV a, .strV b => a == b
  | _, _ => false

instance : BEq Value := ⟨Value.variantEq⟩

/-- Column from value.hpp: (name, type) with structural equality. -/
structure Column where
  name : String
  type : DataType
deriving DecidableEq

/-- Row wraps `std::vector<Value>` (table.hpp). -/
abbrev Row := List Value

/-- Row::setValue: throws "Row index out of range" when the index is out of
bounds, otherwise overwrites in place. -/
def Row.setValue (r : Row) (index : Nat) (v : Value) : Except String Row :=
  if index < r.length then .ok (r.set index v) else .error "Row index out of range"

/-- Table from table.hpp: name, schema, append-ordered rows. -/
structure Table where
  name : String
  schema : List Column
  rows : List Row
deriving DecidableEq

/-- Table::Table (table.cpp lines 10-18): rejects an empty schema or an
empty name; a fresh table holds no rows. -/
def Table.create (name : String) (columns : List Column) : Except String Table :=
  if columns.isEmpty then .error "Table must have at least one column"
  else if name.isEmpty then .error "Table name cannot be empty"
  else .ok ⟨name, columns, []⟩

/-- Index of the first schema column with the given name
(Table::findColumnIndex's scan, table.cpp lines 21-28). -/
def colIndex? : List Column → String → Option Nat
  | [], _ => none
  | c :: rest, n => if c.name == n then some 0 else (colIndex? rest n).map (· + 1)

/-- The first schema column with the given name; `colIndex?` composed with
lookup, which is what Table::getColumn(name) returns. -/
def colFind? (schema : List Column) (n : String) : Option Column :=
  match colIndex? schema n with
  | none => none
  | some i => schema.get? i

/-- Table::hasColumn (table.cpp lines 67-74). -/
def Table.hasColumn (t : Table) (n : String) : Bool :=
  t.schema.any (fun c => c.name == n)

/-- Table::validateRow (table.cpp lines 30-46): arity check, then the first
position whose value tag differs from the declared column type raises. -/
def Table.validateRow (t : Table) (row : Row) : Except String Unit :=
  if row.length != t.schema.length then
    .error ("Row has " ++ toString row.length ++ " values, but table has "
      ++ toString t.schema.length ++ " columns")
  else
    match (row.zip t.schema).find? (fun p => p.1.getType != p.2.type) with
    | some p => .error ("Type mismatch in column " ++ p.2.name)
    | none => .ok ()

/-- Table::insertRow (table.cpp lines 88-91): validate, then append.  The
returned table is the post-call state (unchanged when validation throws). -/
def Table.insertRow (t : Table) (row : Row) : Table × Except String Unit :=
  match t.validateRow row with
  | .error e => (t, .error e)
  | .ok _ => ({ t with rows := t.rows ++ [row] }, .ok ())

/-- The validate-and-resolve loop shared by both selectRows overloads
(table.cpp lines 104-111 and 149-155): for each requested name,
validateColumnExists then findColumnIndex; aborts at the first unknown
name. -/
def resolveIndices (schema : List Column) : List String → Except String (List Nat)
  | [] => .ok []
  | n :: rest =>
    match colIndex? schema n with
    | none => .error ("Column " ++ n ++ " does not exist")
    | some i =>
      match resolveIndices schema rest with
      | .error e => .error e
      | .ok is => .ok (i :: is)

/-- Projection of one row onto the resolved indices; Row::operator[] throws
"Row index out of range" on an out-of-bounds index. -/
def projectRow (row : Row) (idxs : List Nat) : Except String Row :=
  match idxs with
  | [] => .ok []
  | i :: rest =>
    match row.get? i with
    | none => .error "Row index out of range"
    | some v =>
      match projectRow row rest with
      | .error e => .error e
      | .ok vs => .ok (v :: vs)

/-- Projection pass over a list of rows. -/
def projectRows (rows : List Row) (idxs : List Nat) : Except String (List Row) :=
  match rows with
  | [] => .ok []
  | r :: rest =>
    match projectRow r idxs with
    | .error e => .error e
    | .ok pr =>
      match projectRows rest idxs with
      | .error e => .error e
      | .ok prs => .ok (pr :: prs)

/-- Table::selectRows without predicate (table.cpp lines 98-129): a column
list that is exactly ["*"] returns all rows; otherwise every requested name
is validated and the rows are projected (an empty request list projects
every row to the empty row). -/
def Table.selectRows (t : Table) (columnNames : List String) : Except String (List Row) :=
  if columnNames == ["*"] then .ok t.rows
  else
    match resolveIndices t.schema columnNames with
    | .error e => .error e
    | .ok idxs => projectRows t.rows idxs

/-- Table::selectRows with predicate (table.cpp lines 131-172): filter pass
first, then an empty or ["*"] column list returns the filtered rows whole,
otherwise validate and project. -/
def Table.selectRowsWhere (t : Table) (columnNames : List String)
    (condition : Row → Table → Bool) : Except String (List Row) :=
  let filteredRows := t.rows.filter (fun r => condition r t)
  if columnNames.isEmpty || columnNames == ["*"] then .ok filteredRows
  else
    match resolveIndices t.schema columnNames with
    | .error e => .error e
    | .ok idxs => projectRows filteredRows idxs

/-- Name of a data type as printed in error messages. -/
def dataTypeName : DataType → String
  | .int => "int"
  | .str => "string"

/-- The validation loop of Table::updateRows (table.cpp lines 179-191):
every target column must exist and every assigned value's tag must equal
the column's declared type, before any row is touched.  Only the schema and
the update list are consulted. -/
def validateUpdates (schema : List Column) : List (String × Value) → Except String Unit
  | [] => .ok ()
  | (n, v) :: rest =>
    match colFind? schema n with
    | none => .error ("Column " ++ n ++ " does not exist")
    | some c =>
      if v.getType != c.type then
        .error ("Type mismatch for column " ++ n ++ ": expected "
          ++ dataTypeName c.type ++ ", got " ++ dataTypeName v.getType)
      else validateUpdates schema rest

/-- The inner assignment loop of Table::updateRows (table.cpp lines
196-199) applied to one matching row: findColumnIndex then Row::setValue
for each pending update.  On an exception the partially-updated row is
reported together with the message, mirroring in-place mutation. -/
def applyUpdatesGo (schema : List Column) : List (String × Value) → Row → Row × Option String
  | [], r => (r, none)
  | (n, v) :: rest, r =>
    match colIndex? schema n with
    | none => (r, some ("Column " ++ n ++ " not found"))
    | some i =>
      match r.setValue i v with
      | .error e => (r, some e)
      | .ok r2 => applyUpdatesGo schema rest r2

/-- The row loop of Table::updateRows (table.cpp lines 194-202).  `done` is
the already-processed prefix; the condition sees the table in its current
in-place state (processed prefix ++ unprocessed suffix). -/
def updateGo (tname : String) (schema : List Column) (condition : Row → Table → Bool)
    (upd : List (String × Value)) :
    List Row → List Row → Nat → List Row × Except String Nat
  | done, [], count => (done, .ok count)
  | done, r :: rest, count =>
    if condition r ⟨tname, schema, done ++ r :: rest⟩ then
      match applyUpdatesGo schema upd r with
      | (r2, some e) => (done ++ r2 :: rest, .error e)
      | (r2, none) => updateGo tname schema condition upd (done ++ [r2]) rest (count + 1)
    else updateGo tname schema condition upd (done ++ [r]) rest count

/-- Table::updateRows (table.cpp lines 175-205): validate every update
against the schema, then mutate row-by-row, returning the count of mutated
rows.  The returned table is the post-call state. -/
def Table.updateRows (t : Table) (condition : Row → Table → Bool)
    (upd : List (String × Value)) : Table × Except String Nat :=
  match validateUpdates t.schema upd with
  | .error e => (t, .error e)
  | .ok _ =>
    let res := updateGo t.name t.schema condition upd [] t.rows 0
    ({ t with rows := res.1 }, res.2)

/-- Table::deleteRows (table.cpp lines 208-218): remove_if/erase keeps the
rows not matching the condition in order and returns how many were
dropped.  The vector's length is unchanged while the scan runs, so the
condition sees the pre-call table. -/
def Table.deleteRows (t : Table) (condition : Row → Table → Bool) : Table × Nat :=
  let remaining := t.rows.filter (fun r => !condition r t)
  ({ t with rows := remaining }, t.rows.length - remaining.length)

/-- ComparisonOp from condition.hpp. -/
inductive ComparisonOp
  | equal
  | notEqual
  | lessThan
  | greaterThan
  | lessEqual
  | greaterEqual
deriving DecidableEq

/-- ConditionValue from condition.hpp: literal or column reference. -/
inductive ConditionValue
  | literal (v : Value)
  | column (name : String)
deriving DecidableEq

/-- Everything after the first dot of a qualified name, or the whole name
when it has no dot (ConditionValue::evaluate, condition.cpp lines 24-28:
`columnName.substr(dotPos + 1)` for the first `.`). -/
def stripQualifier (s : String) : String :=
  if s.data.contains '.' then String.mk ((s.data.dropWhile (fun c => c != '.')).drop 1)
  else s

/-- ConditionValue::evaluate (condition.cpp lines 8-51): a literal returns
its value; a column reference strips any table qualifier, scans the schema
for the first name match, and indexes into the row. -/
def ConditionValue.evaluate (cv : ConditionValue) (row : Row) (t : Table) :
    Except String Value :=
  match cv with
  | .literal v => .ok v
  | .column columnName =>
    match colIndex? t.schema (stripQualifier columnName) with
    | none => .error ("Column " ++ columnName ++ " not found in table")
    | some columnIndex =>
      match row.get? columnIndex with
      | none => .error "Row does not have enough columns"
      | some v => .ok v

/-- The body of ComparisonCondition::evaluate after both sides are
evaluated (condition.cpp lines 58-84): tags are checked first and a
mismatch throws before any operator runs; the six operators then use
variant equality (`==`/`!=`) and the spaceship ordering (`<` `>` `<=`
`>=`), which cannot throw once the tags agree. -/
def applyComparison (op : ComparisonOp) (a b : Value) : Except String Bool :=
  if a.getType != b.getType then .error "Cannot compare values of different types"
  else
    match op with
    | .equal => .ok (Value.variantEq a b)
    | .notEqual => .ok (!Value.variantEq a b)
    | .lessThan => (a.spaceship b).map (fun o => o == Ordering.lt)
    | .greaterThan => (a.spaceship b).map (fun o => o == Ordering.gt)
    | .lessEqual => (a.spaceship b).map (fun o => o != Ordering.gt)
    | .greaterEqual => (a.spaceship b).map (fun o => o != Ordering.lt)

/-- Condition tree from condition.hpp.  The C++ LogicalCondition stores
child pointers and its evaluate raises MalformedCondition when a pointer is
null; no constructor in the code base (parser or builder) produces a null
operand, so the tree is embedded with its operands always present. -/
inductive Condition
  | comparison (left : ConditionValue) (op : ComparisonOp) (right : ConditionValue)
  | and (left right : Condition)
  | or (left right : Condition)
  | not (operand : Condition)
deriving DecidableEq

/-- Condition::evaluate (condition.cpp lines 54-85 and 115-138).  AND and
OR are evaluated with the C++ built-in `&&`/`||` on bool, which
short-circuit: the right operand runs only when the left has not already
decided the result. -/
def Condition.evaluate : Condition → Row → Table → Except String Bool
  | .comparison l op r, row, t =>
    match l.evaluate row t with
    | .error e => .error e
    | .ok leftVal =>
      match r.evaluate row t with
      | .error e => .error e
      | .ok rightVal => applyComparison op leftVal rightVal
  | .and l r, row, t =>
    match l.evaluate row t with
    | .error e => .error e
    | .ok false => .ok false
    | .ok true => r.evaluate row t
  | .or l r, row, t =>
    match l.evaluate row t with
    | .error e => .error e
    | .ok true => .ok true
    | .ok false => r.evaluate row t
  | .not c, row, t =>
    match c.evaluate row t with
    | .error e => .error e
    | .ok b => .ok (!b)

/-- Database from database.hpp: a named collection of tables.  The C++
unordered_map is embedded as an association list keyed by table name. -/
structure Database where
  name : String
  tables : List (String × Table)

/-- Database::validateTableName (database.cpp lines 17-32): non-empty,
letter/underscore start, alphanumeric/underscore throughout.  DatabaseError
prefixes its message with "Database Error: ". -/
def validateTableName (tableName : String) : Except String Unit :=
  match tableName.data with
  | [] => .error "Database Error: Table name cannot be empty"
  | c :: _ =>
    if !(c.isAlpha || c == '_') then
      .error "Database Error: Table name must start with a letter or underscore"
    else if tableName.data.all (fun ch => ch.isAlphanum || ch == '_') then .ok ()
    else .error "Database Error: Table name can only contain letters, numbers, and underscores"

/-- Database::hasTable (database.cpp lines 78-85): name validation failures
are caught and reported as false; otherwise a plain map lookup. -/
def Database.hasTable (db : Database) (tableName : String) : Bool :=
  match validateTableName tableName with
  | .error _ => false
  | .ok _ => (db.tables.find? (fun p => p.1 == tableName)).isSome

/-- Database::getTable (database.cpp lines 87-96): name validation errors
propagate; an absent table raises TableNotFoundError. -/
def Database.getTable (db : Database) (tableName : String) : Except String Table :=
  match validateTableName tableName with
  | .error e => .error e
  | .ok _ =>
    match db.tables.find? (fun p => p.1 == tableName) with
    | none => .error ("Database Error: Table " ++ tableName ++ " not found")
    | some p => .ok p.2

/-- TokenType from token.hpp (positions and the whitespace-preserving mode
are diagnostics-only and not modelled). -/
inductive TokenType
  | createKw | tableKw | insertKw | intoKw | valuesKw | selectKw | fromKw
  | whereKw | updateKw | setKw | deleteKw | andKw | orKw | notKw
  | innerKw | joinKw | onKw | intKw | strKw
  | identifier | integer | stringLit
  | equal | notEqual | lessThan | greaterThan | lessEqual | greaterEqual
  | asterisk | slash
  | leftParen | rightParen | comma | semicolon | dot
  | eof
deriving DecidableEq

/-- TokenValue from token.hpp: `std::variant<std::monostate, std::string, int>`. -/
inductive TokenValue
  | noneV
  | strV (s : String)
  | intV (n : Int)
deriving DecidableEq

/-- Token from token.hpp (type tag plus optional payload). -/
structure Token where
  type : TokenType
  value : TokenValue
deriving DecidableEq

/-- ASCII toupper on one character (TokenUtils::toUpperCase applies
std::toupper per character; only ASCII lowercase letters change). -/
def asciiToUpper (c : Char) : Char :=
  if 'a' ≤ c && c ≤ 'z' then Char.ofNat (c.toNat - 32) else c

/-- TokenUtils::toUpperCase (token.hpp lines 269-275). -/
def toUpperCase (s : String) : String :=
  String.mk (s.data.map asciiToUpper)

/-- TokenUtils::stringToTokenType (token.hpp lines 139-182): case-insensitive
match against the fixed keyword set; everything else is an identifier. -/
def stringToTokenType (word : String) : TokenType :=
  let u := toUpperCase word
  if u == "CREATE" then .createKw
  else if u == "TABLE" then .tableKw
  else if u == "INSERT" then .insertKw
  else if u == "INTO" then .intoKw
  else if u == "VALUES" then .valuesKw
  else if u == "SELECT" then .selectKw
  else if u == "FROM" then .fromKw
  else if u == "WHERE" then .whereKw
  else if u == "UPDATE" then .updateKw
  else if u == "SET" then .setKw
  else if u == "DELETE" then .deleteKw
  else if u == "AND" then .andKw
  else if u == "OR" then .orKw
  else if u == "NOT" then .notKw
  else if u == "INNER" then .innerKw
  else if u == "JOIN" then .joinKw
  else if u == "ON" then .onKw
  else if u == "INT" then .intKw
  else if u == "STR" then .strKw
  else .identifier

/-- TokenUtils character classes (token.hpp lines 278-300), ASCII only like
the source. -/
def isDigitC (c : Char) : Bool := '0' ≤ c && c ≤ '9'

def isAlphaC (c : Char) : Bool := ('a' ≤ c && c ≤ 'z') || ('A' ≤ c && c ≤ 'Z')

def isIdentStartC (c : Char) : Bool := isAlphaC c || c == '_'

def isIdentCharC (c : Char) : Bool := isAlphaC c || isDigitC c || c == '_'

def isWhitespaceC (c : Char) : Bool := c == ' ' || c == '\t' || c == '\n' || c == '\r'

/-- The digit run collected by Lexer::scanNumber, interpreted as a number. -/
def digitsToNat (s : String) : Nat :=
  s.data.foldl (fun a c => a * 10 + (c.toNat - 48)) 0

/-- std::stoi applied to a maximal digit run (Lexer::scanNumber, lexer.cpp
lines 242-257): the run has no sign, so the parse succeeds exactly when the
value fits a C++ int (at most 2^31 - 1); otherwise std::out_of_range is
caught and re-raised as the lexical error "Invalid number: ...". -/
def stoiDigits (s : String) : Except String Int :=
  if digitsToNat s ≤ 2147483647 then .ok (Int.ofNat (digitsToNat s))
  else .error ("Invalid number: " ++ s)

/-- Lexer::scanString's body (lexer.cpp lines 195-240) after the opening
quote: collect until the matching quote, decoding backslash escapes; an
unterminated literal is the lexical error.  Returns the decoded payload and
the input after the closing quote. -/
def scanStringGo (quote : Char) : List Char → String → Except String (String × List Char)
  | [], _ => .error "Unterminated string literal"
  | c :: rest, acc =>
    if c == quote then .ok (acc, rest)
    else if c == '\\' && !rest.isEmpty then
      match rest with
      | [] => .error "Unterminated string literal"
      | e :: rest2 =>
        let decoded :=
          if e == 'n' then "\n"
          else if e == 't' then "\t"
          else if e == 'r' then "\r"
          else String.singleton e
        scanStringGo quote rest2 (acc ++ decoded)
    else scanStringGo quote rest (acc ++ String.singleton c)

/-- Lexer::scanToken / scanTokens in whitespace-stripped mode (lexer.cpp
lines 30-137).  The fuel argument only discharges termination; every call
with fuel at least the length of the remaining input plus one behaves as
the C++ scan, since each step consumes at least one character. -/
def scanTokens : Nat → List Char → Except String (List Token)
  | 0, _ => .error "out of fuel"
  | _ + 1, [] => .ok [⟨.eof, .noneV⟩]
  | fuel + 1, c :: rest =>
    let emit (tt : TokenType) (tv : TokenValue) (remaining : List Char) :
        Except String (List Token) :=
      match scanTokens fuel remaining with
      | .error e => .error e
      | .ok toks => .ok (⟨tt, tv⟩ :: toks)
    if c == '(' then emit .leftParen .noneV rest
    else if c == ')' then emit .rightParen .noneV rest
    else if c == ',' then emit .comma .noneV rest
    else if c == ';' then emit .semicolon .noneV rest
    else if c == '*' then emit .asterisk .noneV rest
    else if c == '/' then emit .slash .noneV rest
    else if c == '.' then emit .dot .noneV rest
    else if c == '-' then
      match rest with
      | '-' :: rest2 => scanTokens fuel (rest2.dropWhile (fun ch => ch != '\n'))
      | _ => .error "Unexpected character - (did you mean -- for comment?)"
    else if c == '=' then emit .equal .noneV rest
    else if c == '!' then
      match rest with
      | '=' :: rest2 => emit .notEqual .noneV rest2
      | _ => .error "Unexpected character ! (did you mean !=?)"
    else if c == '<' then
      match rest with
      | '=' :: rest2 => emit .lessEqual .noneV rest2
      | _ => emit .lessThan .noneV rest
    else if c == '>' then
      match rest with
      | '=' :: rest2 => emit .greaterEqual .noneV rest2
      | _ => emit .greaterThan .noneV rest
    else if c == '\'' || c == '"' then
      match scanStringGo c rest "" with
      | .error e => .error e
      | .ok sv => emit .stringLit (.strV sv.1) sv.2
    else if isWhitespaceC c then scanTokens fuel rest
    else if isDigitC c then
      let lit := String.mk (c :: rest.takeWhile isDigitC)
      match stoiDigits lit with
      | .error e => .error e
      | .ok n => emit .integer (.intV n) (rest.dropWhile isDigitC)
    else if isIdentStartC c then
      let word := String.mk (c :: rest.takeWhile isIdentCharC)
      let tt := stringToTokenType word
      if tt == .identifier then emit .identifier (.strV word) (rest.dropWhile isIdentCharC)
      else emit tt .noneV (rest.dropWhile isIdentCharC)
    else .error ("Unexpected character: " ++ String.singleton c)

/-- Lexer::tokenize: whitespace-stripped scan of the whole input.  The fuel
bound (length + 1) is always sufficient. -/
def tokenize (source : String) : Except String (List Token) :=
  scanTokens (source.length + 1) source.data

/-- A qualified or plain identifier, as read by Parser::parseComparisonCondition
and Parser::parseSelect (parser.cpp lines 180-191 and 348-356): identifier,
optionally followed by a dot that must be followed by another identifier. -/
def parseQualifiedIdent : List Token → Except String (String × List Token)
  | ⟨.identifier, .strV n⟩ :: ⟨.dot, _⟩ :: ⟨.identifier, .strV m⟩ :: rest =>
    .ok (n ++ "." ++ m, rest)
  | ⟨.identifier, .strV _⟩ :: ⟨.dot, _⟩ :: _ => .error "Expected column name after ."
  | ⟨.identifier, .strV n⟩ :: rest => .ok (n, rest)
  | _ => .error "Expected column name"

/-- Parser::parseComparisonCondition (parser.cpp lines 342-400): a column
reference, a comparison operator, then a literal or a column reference. -/
def parseComparisonCondition (toks : List Token) : Except String (Condition × List Token) :=
  match parseQualifiedIdent toks with
  | .error _ => .error "Expected column name in condition"
  | .ok (leftName, toks1) =>
    let opRes : Except String (ComparisonOp × List Token) :=
      match toks1 with
      | ⟨.equal, _⟩ :: r => .ok (.equal, r)
      | ⟨.notEqual, _⟩ :: r => .ok (.notEqual, r)
      | ⟨.lessThan, _⟩ :: r => .ok (.lessThan, r)
      | ⟨.greaterThan, _⟩ :: r => .ok (.greaterThan, r)
      | ⟨.lessEqual, _⟩ :: r => .ok (.lessEqual, r)
      | ⟨.greaterEqual, _⟩ :: r => .ok (.greaterEqual, r)
      | _ => .error "Expected comparison operator (=, !=, <, >, <=, >=)"
    match opRes with
    | .error e => .error e
    | .ok (op, toks2) =>
      match toks2 with
      | ⟨.integer, .intV n⟩ :: rest =>
        .ok (.comparison (.column leftName) op (.literal (.intV n)), rest)
      | ⟨.stringLit, .strV s⟩ :: rest =>
        .ok (.comparison (.column leftName) op (.literal (.strV s)), rest)
      | _ =>
        match parseQualifiedIdent toks2 with
        | .ok (rightName, rest) =>
          .ok (.comparison (.column leftName) op (.column rightName), rest)
        | .error _ => .error "Expected value or column name"

mutual

/-- Parser::parseLogicalOr (parser.cpp lines 298-311): a left-associative
chain of OR over parseLogicalAnd.  The fuel argument only discharges
termination; every recursive call consumes at least one token, so fuel of
the token count plus one reproduces the C++ descent. -/
def parseLogicalOr : Nat → List Token → Except String (Condition × List Token)
  | 0, _ => .error "out of fuel"
  | fuel + 1, toks =>
    match parseLogicalAnd fuel toks with
    | .error e => .error e
    | .ok (left, toks1) => parseOrRest fuel left toks1

/-- The `while (match(OR))` loop of Parser::parseLogicalOr. -/
def parseOrRest : Nat → Condition → List Token → Except String (Condition × List Token)
  | 0, _, _ => .error "out of fuel"
  | fuel + 1, left, toks =>
    match toks with
    | ⟨.orKw, _⟩ :: rest =>
      match parseLogicalAnd fuel rest with
      | .error e => .error e
      | .ok (right, toks1) => parseOrRest fuel (.or left right) toks1
    | _ => .ok (left, toks)

/-- Parser::parseLogicalAnd (parser.cpp lines 314-327): a left-associative
chain of AND over parsePrimaryCondition. -/
def parseLogicalAnd : Nat → List Token → Except String (Condition × List Token)
  | 0, _ => .error "out of fuel"
  | fuel + 1, toks =>
    match parsePrimaryCondition fuel toks with
    | .error e => .error e
    | .ok (left, toks1) => parseAndRest fuel left toks1

/-- The `while (match(AND))` loop of Parser::parseLogicalAnd. -/
def parseAndRest : Nat → Condition → List Token → Except String (Condition × List Token)
  | 0, _, _ => .error "out of fuel"
  | fuel + 1, left, toks =>
    match toks with
    | ⟨.andKw, _⟩ :: rest =>
      match parsePrimaryCondition fuel rest with
      | .error e => .error e
      | .ok (right, toks1) => parseAndRest fuel (.and left right) toks1
    | _ => .ok (left, toks)

/-- Parser::parsePrimaryCondition (parser.cpp lines 330-340): a
parenthesised condition, or a comparison. -/
def parsePrimaryCondition : Nat → List Token → Except String (Condition × List Token)
  | 0, _ => .error "out of fuel"
  | fuel + 1, toks =>
    match toks with
    | ⟨.leftParen, _⟩ :: rest =>
      match parseLogicalOr fuel rest with
      | .error e => .error e
      | .ok (c, toks1) =>
        match toks1 with
        | ⟨.rightParen, _⟩ :: rest2 => .ok (c, rest2)
        | _ => .error "Expected ) after condition"
    | _ => parseComparisonCondition toks

end

/-- Parser::parseCondition (parser.cpp lines 293-295). -/
def parseCondition (fuel : Nat) (toks : List Token) : Except String (Condition × List Token) :=
  parseLogicalOr fuel toks

/-- JoinClause from ast.hpp: joined table name and ON condition (the only
join type is INNER). -/
structure JoinClause where
  tableName : String
  onCondition : Condition
deriving DecidableEq

/-- SelectStatement from ast.hpp: display columns (empty means `SELECT *`),
driving table, join clauses, optional WHERE condition. -/
structure SelectStatement where
  columns : List String
  tableName : String
  joins : List JoinClause
  whereCondition : Option Condition
deriving DecidableEq

/-- The display-column list loop of Parser::parseSelect (parser.cpp lines
176-192). -/
def parseSelectColumns : Nat → List Token → Except String (List String × List Token)
  | 0, _ => .error "out of fuel"
  | fuel + 1, toks =>
    match parseQualifiedIdent toks with
    | .error _ => .error "Expected column name"
    | .ok (n, toks1) =>
      match toks1 with
      | ⟨.comma, _⟩ :: rest =>
        match parseSelectColumns fuel rest with
        | .error e => .error e
        | .ok (ns, toks2) => .ok (n :: ns, toks2)
      | _ => .ok ([n], toks1)

/-- Parser::parseJoins / parseJoin (parser.cpp lines 415-439): zero or more
`INNER JOIN ident ON condition` clauses. -/
def parseJoins : Nat → List Token → Except String (List JoinClause × List Token)
  | 0, _ => .error "out of fuel"
  | fuel + 1, toks =>
    match toks with
    | ⟨.innerKw, _⟩ :: rest =>
      match rest with
      | ⟨.joinKw, _⟩ :: rest2 =>
        match rest2 with
        | ⟨.identifier, .strV joinTable⟩ :: rest3 =>
          match rest3 with
          | ⟨.onKw, _⟩ :: rest4 =>
            match parseCondition (rest4.length + 1) rest4 with
            | .error e => .error e
            | .ok (onCond, toks1) =>
              match parseJoins fuel toks1 with
              | .error e => .error e
              | .ok (joins, toks2) => .ok (⟨joinTable, onCond⟩ :: joins, toks2)
          | _ => .error "Expected ON"
        | _ => .error "Expected table name"
      | _ => .error "Expected JOIN"
    | _ => .ok ([], toks)

/-- Parser::parseSelect (parser.cpp lines 172-212), entered after the
SELECT keyword was consumed: `*` or a column list, FROM, the driving table,
join clauses, and an optional WHERE condition. -/
def parseSelect (toks : List Token) : Except String (SelectStatement × List Token) :=
  let colsRes : Except String (List String × List Token) :=
    match toks with
    | ⟨.asterisk, _⟩ :: rest => .ok ([], rest)
    | _ => parseSelectColumns (toks.length + 1) toks
  match colsRes with
  | .error e => .error e
  | .ok (columns, toks1) =>
    match toks1 with
    | ⟨.fromKw, _⟩ :: ⟨.identifier, .strV tableName⟩ :: toks2 =>
      match parseJoins (toks2.length + 1) toks2 with
      | .error e => .error e
      | .ok (joins, toks3) =>
        match toks3 with
        | ⟨.whereKw, _⟩ :: rest =>
          match parseCondition (rest.length + 1) rest with
          | .error e => .error e
          | .ok (wc, toks4) => .ok (⟨columns, tableName, joins, some wc⟩, toks4)
        | _ => .ok (⟨columns, tableName, joins, none⟩, toks3)
    | _ => .error "Expected FROM"

/-- SQLExecutor::combineRows (main.cpp lines 313-328): left row's values
followed by right row's values. -/
def combineRows (leftRow rightRow : Row) : Row := leftRow ++ rightRow

/-- SQLExecutor::evaluateJoinCondition (main.cpp lines 287-311): the ON
condition is evaluated against the combined row and a temporary table whose
schema concatenates both tables' columns. -/
def evaluateJoinCondition (cond : Condition) (leftTable : Table) (leftRow : Row)
    (rightTable : Table) (rightRow : Row) : Except String Bool :=
  cond.evaluate (combineRows leftRow rightRow)
    ⟨"temp", leftTable.schema ++ rightTable.schema, []⟩

/-- The per-join-row matching loop of SQLExecutor::executeJoinForRow
(main.cpp lines 278-284). -/
def joinMatchLoop (cond : Condition) (mainTable : Table) (mainRow : Row)
    (joinTable : Table) : List Row → Except String (List Row)
  | [] => .ok []
  | joinRow :: rest =>
    match evaluateJoinCondition cond mainTable mainRow joinTable joinRow with
    | .error e => .error e
    | .ok matched =>
      match joinMatchLoop cond mainTable mainRow joinTable rest with
      | .error e => .error e
      | .ok rows =>
        .ok (if matched then combineRows mainRow joinRow :: rows else rows)

/-- SQLExecutor::executeJoinForRow (main.cpp lines 264-285): with no join
clause the main row passes through; otherwise only the FIRST join clause is
processed (single join stage). -/
def executeJoinForRow (db : Database) (stmt : SelectStatement) (mainTable : Table)
    (mainRow : Row) : Except String (List Row) :=
  match stmt.joins with
  | [] => .ok [mainRow]
  | joinClause :: _ =>
    match db.getTable joinClause.tableName with
    | .error e => .error e
    | .ok joinTable =>
      match joinTable.selectRows ["*"] with
      | .error e => .error e
      | .ok joinRows => joinMatchLoop joinClause.onCondition mainTable mainRow joinTable joinRows

/-- SQLExecutor::buildJoinColumnNames (main.cpp lines 330-350): qualified
"table.column" names for the driving table followed by each join table. -/
def buildJoinColumnNames (db : Database) (stmt : SelectStatement) :
    Except String (List String) :=
  match db.getTable stmt.tableName with
  | .error e => .error e
  | .ok mainTable =>
    let rec joinNames : List JoinClause → Except String (List String)
      | [] => .ok []
      | jc :: rest =>
        match db.getTable jc.tableName with
        | .error e => .error e
        | .ok jt =>
          match joinNames rest with
          | .error e => .error e
          | .ok ns => .ok (jt.schema.map (fun c => jc.tableName ++ "." ++ c.name) ++ ns)
    match joinNames stmt.joins with
    | .error e => .error e
    | .ok ns => .ok (mainTable.schema.map (fun c => stmt.tableName ++ "." ++ c.name) ++ ns)

/-- First position of a string in a list (std::find in
SQLExecutor::extractSelectedColumns). -/
def indexOfStr : List String → String → Option Nat
  | [], _ => none
  | s :: rest, n => if s == n then some 0 else (indexOfStr rest n).map (· + 1)

/-- SQLExecutor::extractSelectedColumns (main.cpp lines 352-397): selected
display names are resolved against the combined name list (unmatched names
are silently dropped); each row keeps the values at the resolved indices
and is itself dropped when nothing survives. -/
def extractSelectedColumns (rows : List Row) (allColumnNames selectedColumns : List String) :
    List Row :=
  if selectedColumns.isEmpty || rows.isEmpty then rows
  else if allColumnNames.isEmpty then []
  else
    let selectedIndices := selectedColumns.filterMap (fun sc => indexOfStr allColumnNames sc)
    if selectedIndices.isEmpty then []
    else
      rows.filterMap (fun row =>
        let vals := selectedIndices.filterMap (fun i => row.get? i)
        if vals.isEmpty then none else some vals)

/-- The WHERE post-filter loop of SQLExecutor::executeSelectWithJoin
(main.cpp lines 220-243): each combined row is tested against a temporary
table whose schema uses the qualifier-stripped combined names, all typed
int (the types are only for name lookup). -/
def joinWhereFilter (wc : Condition) (combinedSchema : List Column) :
    List Row → Except String (List Row)
  | [] => .ok []
  | row :: rest =>
    match wc.evaluate row ⟨"temp", combinedSchema, []⟩ with
    | .error e => .error e
    | .ok keep =>
      match joinWhereFilter wc combinedSchema rest with
      | .error e => .error e
      | .ok rows => .ok (if keep then row :: rows else rows)

/-- The per-main-row loop of SQLExecutor::executeSelectWithJoin (main.cpp
lines 215-217). -/
def joinMainLoop (db : Database) (stmt : SelectStatement) (mainTable : Table) :
    List Row → Except String (List Row)
  | [] => .ok []
  | mainRow :: rest =>
    match executeJoinForRow db stmt mainTable mainRow with
    | .error e => .error e
    | .ok newRows =>
      match joinMainLoop db stmt mainTable rest with
      | .error e => .error e
      | .ok rows => .ok (newRows ++ rows)

/-- SQLExecutor::executeSelectWithJoin (main.cpp lines 206-262): nested-loop
join over the driving table, optional WHERE post-filter against the
synthetic combined schema, then projection of the selected display columns
against the combined "table.column" name list. -/
def executeSelectWithJoin (db : Database) (stmt : SelectStatement) :
    Except String (List Row) :=
  match db.getTable stmt.tableName with
  | .error e => .error e
  | .ok mainTable =>
    match mainTable.selectRows ["*"] with
    | .error e => .error e
    | .ok mainRows =>
      match joinMainLoop db stmt mainTable mainRows with
      | .error e => .error e
      | .ok resultRows =>
        let filteredRes : Except String (List Row) :=
          match stmt.whereCondition with
          | none => .ok resultRows
          | some wc =>
            match buildJoinColumnNames db stmt with
            | .error e => .error e
            | .ok allColumnNames =>
              let combinedSchema : List Column :=
                allColumnNames.map (fun cn => ⟨stripQualifier cn, DataType.int⟩)
              joinWhereFilter wc combinedSchema resultRows
        match filteredRes with
        | .error e => .error e
        | .ok rows2 =>
          match buildJoinColumnNames db stmt with
          | .error e => .error e
          | .ok allColumnNames =>
            let selectedColumns := if stmt.columns.isEmpty then allColumnNames else stmt.columns
            .ok (extractSelectedColumns rows2 allColumnNames selectedColumns)

/-- End-to-end run of a SELECT-with-join text against a database: tokenize,
parse (SQLExecutor::execute dispatches a SELECT token to parseSelect), then
execute.  Mirrors the lex-parse-interpret pipeline of SQLExecutor::execute
for a SELECT statement. -/
def runSelect (db : Database) (sql : String) : Except String (List Row) :=
  match tokenize sql with
  | .error e => .error e
  | .ok toks =>
    match toks with
    | ⟨.selectKw, _⟩ :: rest =>
      match parseSelect rest with
      | .error e => .error e
      | .ok (stmt, _) => executeSelectWithJoin db stmt
    | _ => .error "Expected SQL statement"

/-- One mutating table operation, for stating reachability of table states
(Table::insertRow / updateRows / deleteRows). -/
inductive DBOp
  | insert (row : Row)
  | update (condition : Row → Table → Bool) (upd : List (String × Value))
  | delete (condition : Row → Table → Bool)

/-- The table state after one operation (the post-call state whether or not
the call threw). -/
def applyOp (t : Table) : DBOp → Table
  | .insert row => (t.insertRow row).1
  | .update condition upd => (t.updateRows condition upd).1
  | .delete condition => (t.deleteRows condition).1

/-- The table state after a sequence of operations. -/
def applyOps (t : Table) (ops : List DBOp) : Table := ops.foldl applyOp t

/-! Specification-side notions and concrete fixtures used by the claims. -/

/-- The schema invariant on a single row: same arity as the schema and the
tag of every value equals the declared column type at its position. -/
def rowWellTyped : List Column → Row → Bool
  | [], [] => true
  | c :: cs, v :: vs => (v.getType == c.type) && rowWellTyped cs vs
  | _, _ => false

/-- The schema invariant on a table: every stored row is well typed. -/
def WellTypedTable (t : Table) : Prop :=
  ∀ r ∈ t.rows, rowWellTyped t.schema r = true

/-- Whether an operation raised. -/
def isError {α : Type} : Except String α → Bool
  | .error _ => true
  | .ok _ => false

/-- Driver composing the lexer with the condition parser, as the parser
does for a WHERE/ON clause (fuel one beyond the token count always
suffices). -/
def parseConditionText (s : String) : Except String Condition :=
  match tokenize s with
  | .error e => .error e
  | .ok toks =>
    match parseCondition (toks.length + 1) toks with
    | .error e => .error e
    | .ok p => .ok p.1

deriving instance DecidableEq for Except

/-- Scenario D fixture: employees(id, name, dept_id). -/
def employeesT : Table :=
  ⟨"employees", [⟨"id", .int⟩, ⟨"name", .str⟩, ⟨"dept_id", .int⟩],
    [[.intV 1, .strV "Alice", .intV 1], [.intV 2, .strV "Bob", .intV 99]]⟩

/-- Scenario D fixture: departments(id, name). -/
def departmentsT : Table :=
  ⟨"departments", [⟨"id", .int⟩, ⟨"name", .str⟩], [[.intV 1, .strV "Eng"]]⟩

/-- Scenario D database. -/
def joinDB : Database :=
  ⟨"TinyDB", [("employees", employeesT), ("departments", departmentsT)]⟩

/-- Scenario C fixture table with columns a, b, c. -/
def abcT : Table := ⟨"t", [⟨"a", .int⟩, ⟨"b", .int⟩, ⟨"c", .int⟩], []⟩

/-- Scenario C fixture row with a=1, b=9, c=9. -/
def abcRow1 : Row := [.intV 1, .intV 9, .intV 9]

/-- Scenario C fixture row with a=9, b=2, c=3. -/
def abcRow2 : Row := [.intV 9, .intV 2, .intV 3]

/-- The comparison `a = 1` as a Condition tree. -/
def cmpA1 : Condition := .comparison (.column "a") .equal (.literal (.intV 1))

/-- The comparison `b = 2` as a Condition tree. -/
def cmpB2 : Condition := .comparison (.column "b") .equal (.literal (.intV 2))

/-- The comparison `c = 3` as a Condition tree. -/
def cmpC3 : Condition := .comparison (.column "c") .equal (.literal (.intV 3))

/-- A comparison that evaluates to false on any row of any table:
`1 = 2` over literals. -/
def condFalse : Condition := .comparison (.literal (.intV 1)) .equal (.literal (.intV 2))

/-- A comparison that evaluates to true on any row of any table:
`1 = 1` over literals. -/
def condTrue : Condition := .comparison (.literal (.intV 1)) .equal (.literal (.intV 1))

/-- A comparison whose evaluation raises TypeMismatch on any row:
the literals 1 and "x" have different tags. -/
def condTypeErr : Condition := .comparison (.literal (.intV 1)) .equal (.literal (.strV "x"))

/-- One-column one-row fixture table for the projection claims. -/
def oneRowT : Table := ⟨"t", [⟨"x", .int⟩], [[.intV 5]]⟩

/-- Two-row fixture table for the deletion claims. -/
def twoRowT : Table := ⟨"t", [⟨"x", .int⟩], [[.intV 1], [.intV 2]]⟩

/-- A predicate that consults the table state it is given: while the table
still has two rows it matches only the row [1], afterwards it matches
everything.  Deterministic in (row, table). -/
def headSensitive (r : Row) (t : Table) : Bool :=
  if t.rows.length == 2 then r == [Value.intV 1] else true

/-! Supporting lemmas. -/

theorem rowWellTyped_length {s : List Column} {r : Row}
    (h : rowWellTyped s r = true) : r.length = s.length := by
  induction s generalizing r with
  | nil => cases r with
    | nil => rfl
    | cons v vs => simp [rowWellTyped] at h
  | cons c cs ih =>
    cases r with
    | nil => simp [rowWellTyped] at h
    | cons v vs =>
      simp only [rowWellTyped, Bool.and_eq_true] at h
      simp [ih h.2]

theorem rowWellTyped_get {s : List Column} {r : Row}
    (h : rowWellTyped s r = true) :
    ∀ i v c, r.get? i = some v → s.get? i = some c → v.getType = c.type := by
  induction s generalizing r with
  | nil => intro i v c _ hc; simp at hc
  | cons c0 cs ih =>
    cases r with
    | nil => simp [rowWellTyped] at h
    | cons v0 vs =>
      simp only [rowWellTyped, Bool.and_eq_true, beq_iff_eq] at h
      intro i v c hv hc
      cases i with
      | zero =>
        simp only [List.get?] at hv hc
        cases hv; cases hc; exact h.1
      | succ j =>
        simp only [List.get?] at hv hc
        exact ih h.2 j v c hv hc

theorem rowWellTyped_iff {s : List Column} {r : Row} :
    rowWellTyped s r = true ↔
      r.length = s.length ∧ ∀ p ∈ r.zip s, p.1.getType = p.2.type := by
  induction s generalizing r with
  | nil =>
    cases r with
    | nil => simp [rowWellTyped]
    | cons v vs => simp [rowWellTyped]
  | cons c cs ih =>
    cases r with
    | nil => simp [rowWellTyped]
    | cons v vs =>
      simp only [rowWellTyped, Bool.and_eq_true, beq_iff_eq, ih, List.zip_cons_cons,
        List.mem_cons, List.length_cons, Nat.succ.injEq]
      constructor
      · rintro ⟨h1, h2, h3⟩
        exact ⟨h2, fun p hp => by
          rcases hp with hp | hp
          · subst hp; exact h1
          · exact h3 p hp⟩
      · rintro ⟨h1, h2⟩
        exact ⟨h2 (v, c) (Or.inl rfl), h1, fun p hp => h2 p (Or.inr hp)⟩

theorem validateRow_ok_iff {t : Table} {row : Row} :
    t.validateRow row = .ok () ↔ rowWellTyped t.schema row = true := by
  unfold Table.validateRow
  rw [rowWellTyped_iff]
  by_cases hl : row.length = t.schema.length
  · have hbne : (row.length != t.schema.length) = false := by simpa using hl
    cases hf : (row.zip t.schema).find? (fun p => p.1.getType != p.2.type) with
    | some p =>
      simp only [hbne, Bool.false_eq_true, if_false, hf]
      constructor
      · intro h; simp at h
      · rintro ⟨-, h2⟩
        have hmem := List.find?_some hf
        have hp := List.mem_of_find?_eq_some hf
        rw [h2 p hp] at hmem
        simp at hmem
    | none =>
      simp only [hbne, Bool.false_eq_true, if_false, hf]
      rw [List.find?_eq_none] at hf
      constructor
      · intro _
        exact ⟨hl, fun p hp => by simpa using hf p hp⟩
      · intro _; trivial
  · have hbne : (row.length != t.schema.length) = true := by simpa using hl
    simp only [hbne, if_true]
    constructor
    · intro h; simp at h
    · rintro ⟨h1, -⟩; exact absurd h1 hl

theorem colIndex?_lt {s : List Column} {n : String} {i : Nat}
    (h : colIndex? s n = some i) : i < s.length := by
  induction s generalizing i with
  | nil => simp [colIndex?] at h
  | cons c cs ih =>
    rw [colIndex?] at h
    split at h
    · cases h; simp
    · rw [Option.map_eq_some'] at h
      obtain ⟨j, hj, rfl⟩ := h
      exact Nat.succ_lt_succ (ih hj)

theorem colIndex?_get {s : List Column} {n : String} {i : Nat}
    (h : colIndex? s n = some i) : ∃ c, s.get? i = some c ∧ c.name = n := by
  induction s generalizing i with
  | nil => simp [colIndex?] at h
  | cons c cs ih =>
    rw [colIndex?] at h
    split at h
    next hc =>
      cases h
      exact ⟨c, rfl, by simpa using hc⟩
    next hc =>
      rw [Option.map_eq_some'] at h
      obtain ⟨j, hj, rfl⟩ := h
      obtain ⟨c2, hc2, hn⟩ := ih hj
      exact ⟨c2, hc2, hn⟩

theorem rowWellTyped_set {s : List Column} {r : Row} {i : Nat} {c : Column} {v : Value}
    (hr : rowWellTyped s r = true) (hc : s.get? i = some c) (hv : v.getType = c.type) :
    rowWellTyped s (r.set i v) = true := by
  induction s generalizing r i with
  | nil => simp at hc
  | cons c0 cs ih =>
    cases r with
    | nil => simp [rowWellTyped] at hr
    | cons v0 vs =>
      simp only [rowWellTyped, Bool.and_eq_true, beq_iff_eq] at hr
      cases i with
      | zero =>
        simp only [List.get?] at hc
        cases hc
        simp only [List.set, rowWellTyped, Bool.and_eq_true, beq_iff_eq]
        exact ⟨hv, hr.2⟩
      | succ j =>
        simp only [List.get?] at hc
        simp only [List.set, rowWellTyped, Bool.and_eq_true, beq_iff_eq]
        exact ⟨hr.1, ih hr.2 hc⟩

theorem validateUpdates_ok {s : List Column} {upd : List (String × Value)}
    (h : validateUpdates s upd = .ok ()) :
    ∀ p ∈ upd, ∃ i c, colIndex? s p.1 = some i ∧ s.get? i = some c ∧ p.2.getType = c.type := by
  induction upd with
  | nil => intro p hp; simp at hp
  | cons q rest ih =>
    obtain ⟨n, v⟩ := q
    rw [validateUpdates] at h
    cases hcf : colFind? s n with
    | none => rw [hcf] at h; simp at h
    | some c =>
      simp only [hcf] at h
      by_cases hne : (v.getType != c.type) = true
      · rw [if_pos hne] at h; simp at h
      · rw [if_neg hne] at h
        have htype : v.getType = c.type := by simpa using hne
        have hidx : ∃ i, colIndex? s n = some i ∧ s.get? i = some c := by
          unfold colFind? at hcf
          cases hci : colIndex? s n with
          | none => rw [hci] at hcf; simp at hcf
          | some i => rw [hci] at hcf; exact ⟨i, rfl, hcf⟩
        obtain ⟨i, hci, hgi⟩ := hidx
        intro p hp
        rcases List.mem_cons.mp hp with hp | hp
        · subst hp; exact ⟨i, c, hci, hgi, htype⟩
        · exact ih h p hp

theorem applyUpdatesGo_wt {s : List Column} {upd : List (String × Value)}
    (hupd : ∀ p ∈ upd,
      ∃ i c, colIndex? s p.1 = some i ∧ s.get? i = some c ∧ p.2.getType = c.type) :
    ∀ r, rowWellTyped s r = true →
      ∃ r2, applyUpdatesGo s upd r = (r2, none) ∧ rowWellTyped s r2 = true := by
  induction upd with
  | nil => intro r hr; exact ⟨r, rfl, hr⟩
  | cons q rest ih =>
    obtain ⟨n, v⟩ := q
    intro r hr
    obtain ⟨i, c, hidx, hget, htype⟩ := hupd (n, v) (List.mem_cons_self _ _)
    have hilt : i < r.length := by
      rw [rowWellTyped_length hr]
      exact colIndex?_lt hidx
    have hset : rowWellTyped s (r.set i v) = true := rowWellTyped_set hr hget htype
    obtain ⟨r2, happ, hr2⟩ := ih (fun p hp => hupd p (List.mem_cons_of_mem _ hp)) (r.set i v) hset
    refine ⟨r2, ?_, hr2⟩
    simp only [applyUpdatesGo, hidx, Row.setValue, if_pos hilt]
    exact happ

theorem applyUpdatesGo_len {s : List Column} {upd : List (String × Value)}
    (hupd : ∀ p ∈ upd, ∃ i, colIndex? s p.1 = some i) :
    ∀ r, r.length = s.length →
      ∃ r2, applyUpdatesGo s upd r = (r2, none) ∧ r2.length = s.length := by
  induction upd with
  | nil => intro r hr; exact ⟨r, rfl, hr⟩
  | cons q rest ih =>
    obtain ⟨n, v⟩ := q
    intro r hr
    obtain ⟨i, hidx⟩ := hupd (n, v) (List.mem_cons_self _ _)
    have hilt : i < r.length := by
      rw [hr]
      exact colIndex?_lt hidx
    obtain ⟨r2, happ, hr2⟩ := ih (fun p hp => hupd p (List.mem_cons_of_mem _ hp))
      (r.set i v) (by rw [List.length_set]; exact hr)
    refine ⟨r2, ?_, hr2⟩
    simp only [applyUpdatesGo, hidx, Row.setValue, if_pos hilt]
    exact happ

theorem updateGo_wt {tname : String} {s : List Column} {cond : Row → Table → Bool}
    {upd : List (String × Value)}
    (hupd : ∀ p ∈ upd,
      ∃ i c, colIndex? s p.1 = some i ∧ s.get? i = some c ∧ p.2.getType = c.type) :
    ∀ suffix done count, (∀ r ∈ done, rowWellTyped s r = true) →
      (∀ r ∈ suffix, rowWellTyped s r = true) →
      ∃ rows2 k, updateGo tname s cond upd done suffix count = (rows2, .ok k) ∧
        ∀ r ∈ rows2, rowWellTyped s r = true := by
  intro suffix
  induction suffix with
  | nil => intro done count hdone _; exact ⟨done, count, rfl, hdone⟩
  | cons r rest ih =>
    intro done count hdone hsuf
    have hr : rowWellTyped s r = true := hsuf r (List.mem_cons_self _ _)
    have hrest : ∀ x ∈ rest, rowWellTyped s x = true :=
      fun x hx => hsuf x (List.mem_cons_of_mem _ hx)
    rw [updateGo]
    by_cases hcond : cond r ⟨tname, s, done ++ r :: rest⟩ = true
    · rw [if_pos hcond]
      obtain ⟨r2, happ, hr2⟩ := applyUpdatesGo_wt hupd r hr
      rw [happ]
      refine ih (done ++ [r2]) (count + 1) ?_ hrest
      intro x hx
      rcases List.mem_append.mp hx with hx | hx
      · exact hdone x hx
      · simp only [List.mem_singleton] at hx
        subst hx
        exact hr2
    · rw [if_neg hcond]
      refine ih (done ++ [r]) count ?_ hrest
      intro x hx
      rcases List.mem_append.mp hx with hx | hx
      · exact hdone x hx
      · simp only [List.mem_singleton] at hx
        subst hx
        exact hr

theorem updateGo_count {tname : String} {s : List Column} {cond : Row → Table → Bool}
    {upd : List (String × Value)} (condF : Row → Bool)
    (hc : ∀ r rows, cond r ⟨tname, s, rows⟩ = condF r)
    (hupd : ∀ p ∈ upd, ∃ i, colIndex? s p.1 = some i) :
    ∀ suffix done count, (∀ r ∈ suffix, r.length = s.length) →
      (updateGo tname s cond upd done suffix count).2 = .ok (count + suffix.countP condF) := by
  intro suffix
  induction suffix with
  | nil => intro done count _; simp [updateGo]
  | cons r rest ih =>
    intro done count hsuf
    have hr : r.length = s.length := hsuf r (List.mem_cons_self _ _)
    have hrest : ∀ x ∈ rest, x.length = s.length :=
      fun x hx => hsuf x (List.mem_cons_of_mem _ hx)
    rw [updateGo]
    by_cases hcond : condF r = true
    · rw [if_pos (by rw [hc]; exact hcond)]
      obtain ⟨r2, happ, _⟩ := applyUpdatesGo_len hupd r hr
      rw [happ]
      have hcnt : count + (r :: rest).countP condF = count + 1 + rest.countP condF := by
        rw [List.countP_cons]
        simp [hcond]
        omega
      rw [hcnt]
      exact ih (done ++ [r2]) (count + 1) hrest
    · rw [if_neg (by rw [hc]; exact hcond)]
      have hcnt : count + (r :: rest).countP condF = count + rest.countP condF := by
        rw [List.countP_cons]
        simp [hcond]
      rw [hcnt]
      exact ih (done ++ [r]) count hrest

theorem schema_insertRow (t : Table) (row : Row) : (t.insertRow row).1.schema = t.schema := by
  unfold Table.insertRow
  cases t.validateRow row <;> rfl

theorem schema_updateRows (t : Table) (cond : Row → Table → Bool)
    (upd : List (String × Value)) : (t.updateRows cond upd).1.schema = t.schema := by
  unfold Table.updateRows
  cases validateUpdates t.schema upd <;> rfl

theorem schema_deleteRows (t : Table) (cond : Row → Table → Bool) :
    (t.deleteRows cond).1.schema = t.schema := rfl

theorem wellTyped_insertRow {t : Table} {row : Row} (h : WellTypedTable t) :
    WellTypedTable (t.insertRow row).1 := by
  intro r hr
  rw [schema_insertRow]
  unfold Table.insertRow at hr
  cases hv : t.validateRow row with
  | error e =>
    simp only [hv] at hr
    exact h r hr
  | ok u =>
    cases u
    simp only [hv] at hr
    rcases List.mem_append.mp hr with hr | hr
    · exact h r hr
    · simp only [List.mem_singleton] at hr
      subst hr
      exact validateRow_ok_iff.mp hv

theorem wellTyped_deleteRows {t : Table} {cond : Row → Table → Bool}
    (h : WellTypedTable t) : WellTypedTable (t.deleteRows cond).1 := by
  intro r hr
  rw [schema_deleteRows]
  simp only [Table.deleteRows] at hr
  exact h r (List.mem_of_mem_filter hr)

theorem wellTyped_updateRows {t : Table} {cond : Row → Table → Bool}
    {upd : List (String × Value)} (h : WellTypedTable t) :
    WellTypedTable (t.updateRows cond upd).1 := by
  intro r hr
  rw [schema_updateRows]
  unfold Table.updateRows at hr
  cases hv : validateUpdates t.schema upd with
  | error e =>
    simp only [hv] at hr
    exact h r hr
  | ok u =>
    cases u
    simp only [hv] at hr
    obtain ⟨rows2, k, heq, hwt⟩ := updateGo_wt (validateUpdates_ok hv) t.rows [] 0
      (fun x hx => absurd hx (List.not_mem_nil x)) h
    rw [heq] at hr
    exact hwt r hr

theorem wellTyped_applyOp {t : Table} (op : DBOp) (h : WellTypedTable t) :
    WellTypedTable (applyOp t op) := by
  cases op with
  | insert row => exact wellTyped_insertRow h
  | update cond upd => exact wellTyped_updateRows h
  | delete cond => exact wellTyped_deleteRows h

theorem wellTyped_applyOps {t : Table} (ops : List DBOp) (h : WellTypedTable t) :
    WellTypedTable (applyOps t ops) := by
  induction ops generalizing t with
  | nil => exact h
  | cons op rest ih => exact ih (wellTyped_applyOp op h)

theorem projectRows_nil (rows : List Row) :
    projectRows rows [] = .ok (rows.map (fun _ => ([] : Row))) := by
  induction rows with
  | nil => rfl
  | cons r rest ih => simp [projectRows, projectRow, ih]

theorem resolveIndices_err {s : List Column} {cols : List String} {n : String}
    (hmem : n ∈ cols) (hnone : colIndex? s n = none) :
    ∃ e, resolveIndices s cols = .error e := by
  induction cols with
  | nil => simp at hmem
  | cons m rest ih =>
    rw [resolveIndices]
    cases hcm : colIndex? s m with
    | none => exact ⟨_, rfl⟩
    | some i =>
      rcases List.mem_cons.mp hmem with hm | hm
      · subst hm
        rw [hcm] at hnone
        simp at hnone
      · obtain ⟨e, he⟩ := ih hm
        exact ⟨e, by simp only [hcm, he]⟩

theorem updateGo_ok_len {tname : String} {s : List Column} {cond : Row → Table → Bool}
    {upd : List (String × Value)}
    (hupd : ∀ p ∈ upd, ∃ i, colIndex? s p.1 = some i) :
    ∀ suffix done count, (∀ r ∈ suffix, r.length = s.length) →
      ∃ rows2 k, updateGo tname s cond upd done suffix count = (rows2, .ok k) := by
  intro suffix
  induction suffix with
  | nil => intro done count _; exact ⟨done, count, rfl⟩
  | cons r rest ih =>
    intro done count hsuf
    have hr : r.length = s.length := hsuf r (List.mem_cons_self _ _)
    have hrest : ∀ x ∈ rest, x.length = s.length :=
      fun x hx => hsuf x (List.mem_cons_of_mem _ hx)
    rw [updateGo]
    by_cases hcond : cond r ⟨tname, s, done ++ r :: rest⟩ = true
    · rw [if_pos hcond]
      obtain ⟨r2, happ, _⟩ := applyUpdatesGo_len hupd r hr
      rw [happ]
      exact ih (done ++ [r2]) (count + 1) hrest
    · rw [if_neg hcond]
      exact ih (done ++ [r]) count hrest

/-! The claims. -/

/-- C1.  Schema invariant: every table reachable from a freshly constructed
table by any sequence of insertRow/updateRows/deleteRows operations stores
only rows whose length equals the schema length and whose value tags equal
the declared column types positionally. -/
theorem schemaInvariant_reachable (name : String) (cols : List Column) (t0 : Table)
    (ops : List DBOp) (h0 : Table.create name cols = .ok t0) :
    ∀ r ∈ (applyOps t0 ops).rows,
      r.length = (applyOps t0 ops).schema.length ∧
      ∀ i (hi : i < r.length) (hs : i < (applyOps t0 ops).schema.length),
        (r.get ⟨i, hi⟩).getType = ((applyOps t0 ops).schema.get ⟨i, hs⟩).type := by
  have h00 : WellTypedTable t0 := by
    unfold Table.create at h0
    split at h0
    · simp at h0
    split at h0
    · simp at h0
    cases h0
    intro r hr
    exact absurd hr (List.not_mem_nil r)
  have hwt := wellTyped_applyOps ops h00
  intro r hr
  have h1 := hwt r hr
  refine ⟨rowWellTyped_length h1, ?_⟩
  intro i hi hs
  exact rowWellTyped_get h1 i _ _ (List.get?_eq_get hi) (List.get?_eq_get hs)

/-- Concrete operation sequence exercising the schema invariant: a valid
insert, a valid update, a rejected ill-typed insert, and a delete. -/
def opsW : List DBOp :=
  [.insert [Value.intV 5],
   .update (fun _ _ => true) [("x", Value.intV 7)],
   .insert [Value.strV "no"],
   .delete (fun _ _ => false)]

/-- Witness for C1 at a concrete table and operation list. -/
theorem schemaInvariant_reachable_witness :
    Table.create "t" [⟨"x", DataType.int⟩] = .ok ⟨"t", [⟨"x", DataType.int⟩], []⟩ ∧
    ∀ r ∈ (applyOps ⟨"t", [⟨"x", DataType.int⟩], []⟩ opsW).rows,
      r.length = (applyOps ⟨"t", [⟨"x", DataType.int⟩], []⟩ opsW).schema.length ∧
      ∀ i (hi : i < r.length)
        (hs : i < (applyOps ⟨"t", [⟨"x", DataType.int⟩], []⟩ opsW).schema.length),
        (r.get ⟨i, hi⟩).getType =
          ((applyOps ⟨"t", [⟨"x", DataType.int⟩], []⟩ opsW).schema.get ⟨i, hs⟩).type :=
  ⟨rfl, schemaInvariant_reachable "t" [⟨"x", DataType.int⟩] ⟨"t", [⟨"x", DataType.int⟩], []⟩
    opsW rfl⟩

/-- C2.  Atomicity on error: a failing insertRow or updateRows leaves the
rows exactly as they were; the error updateRows reports is the one its
validation pass computes from the schema and the update list alone, before
any row is touched; a successful updateRows reports the number of matching
rows. -/
theorem validationPrecedesMutation (t : Table)
    (hlen : ∀ r ∈ t.rows, r.length = t.schema.length) :
    (∀ row e, (t.insertRow row).2 = .error e → (t.insertRow row).1 = t) ∧
    (∀ cond upd e, (t.updateRows cond upd).2 = .error e → (t.updateRows cond upd).1 = t) ∧
    (∀ cond upd e, (t.updateRows cond upd).2 = .error e →
      validateUpdates t.schema upd = .error e) ∧
    (∀ cond upd n, (∀ r u, u.schema = t.schema → cond r u = cond r t) →
      (t.updateRows cond upd).2 = .ok n → n = t.rows.countP (fun r => cond r t)) := by
  have hupd1 : ∀ upd, validateUpdates t.schema upd = .ok () →
      ∀ p ∈ upd, ∃ i, colIndex? t.schema p.1 = some i := by
    intro upd hv p hp
    obtain ⟨i, c, h1, -, -⟩ := validateUpdates_ok hv p hp
    exact ⟨i, h1⟩
  refine ⟨?_, ?_, ?_, ?_⟩
  · intro row e h
    unfold Table.insertRow at h ⊢
    cases hv : t.validateRow row with
    | error e2 => rfl
    | ok u => cases u; rw [hv] at h; simp at h
  · intro cond upd e h
    unfold Table.updateRows at h ⊢
    cases hv : validateUpdates t.schema upd with
    | error e2 => rfl
    | ok u =>
      cases u
      rw [hv] at h
      obtain ⟨rows2, k, heq⟩ :=
        @updateGo_ok_len t.name t.schema cond upd (hupd1 upd hv) t.rows [] 0 hlen
      rw [heq] at h
      simp at h
  · intro cond upd e h
    unfold Table.updateRows at h
    cases hv : validateUpdates t.schema upd with
    | error e2 =>
      rw [hv] at h
      simp only [Except.error.injEq] at h
      subst h
      rfl
    | ok u =>
      cases u
      rw [hv] at h
      obtain ⟨rows2, k, heq⟩ :=
        @updateGo_ok_len t.name t.schema cond upd (hupd1 upd hv) t.rows [] 0 hlen
      rw [heq] at h
      simp at h
  · intro cond upd n hcond h
    unfold Table.updateRows at h
    cases hv : validateUpdates t.schema upd with
    | error e2 => rw [hv] at h; simp at h
    | ok u =>
      cases u
      rw [hv] at h
      have hcnt := updateGo_count (fun r => cond r t)
        (fun r rows => hcond r ⟨t.name, t.schema, rows⟩ rfl)
        (hupd1 upd hv) t.rows [] 0 hlen
      simp only [hcnt, Except.ok.injEq] at h
      omega

/-- One-column one-row fixture table for the atomicity witness. -/
def atomT : Table := ⟨"t", [⟨"x", DataType.int⟩], [[Value.intV 7]]⟩

/-- Witness for C2: a rejected ill-typed insert and a rejected
unknown-column update leave the concrete table unchanged, and a successful
update reports the matching-row count. -/
theorem validationPrecedesMutation_witness :
    (atomT.insertRow [Value.strV "x"]).1 = atomT ∧
    (atomT.updateRows (fun _ _ => true) [("zzz", Value.intV 0)]).1 = atomT ∧
    1 = atomT.rows.countP (fun r => (fun _ _ => true) r atomT) := by
  have h := validationPrecedesMutation atomT (by
    intro r hr
    simp only [atomT, List.mem_singleton] at hr
    subst hr
    rfl)
  exact ⟨h.1 [Value.strV "x"] "Type mismatch in column x" (by rfl),
    h.2.1 (fun _ _ => true) [("zzz", Value.intV 0)] "Column zzz does not exist" (by rfl),
    h.2.2.2 (fun _ _ => true) [("x", Value.intV 9)] 1 (fun _ _ _ => rfl) (by rfl)⟩

/-- C3 counterexample: AND short-circuits.  With a false left operand and a
right operand whose evaluation raises TypeMismatch, the whole evaluation
returns the boolean false instead of raising; dually OR with a true left
operand returns true. -/
theorem logicalEvaluation_shortCircuits :
    (Condition.and condFalse condTypeErr).evaluate [] abcT = .ok false ∧
    condTypeErr.evaluate [] abcT = .error "Cannot compare values of different types" ∧
    (Condition.or condTrue condTypeErr).evaluate [] abcT = .ok true :=
  ⟨rfl, rfl, rfl⟩

/-- C3 as amended: Logical AND/OR evaluation short-circuits like the C++
built-in operators it is written with: the right operand is evaluated only
when the left operand has not already decided the result, and a deciding
left operand hides any error the right operand would raise. -/
theorem logicalEvaluation_semantics (l r : Condition) (row : Row) (t : Table) :
    (l.evaluate row t = .ok false → (Condition.and l r).evaluate row t = .ok false) ∧
    (l.evaluate row t = .ok true → (Condition.and l r).evaluate row t = r.evaluate row t) ∧
    (l.evaluate row t = .ok true → (Condition.or l r).evaluate row t = .ok true) ∧
    (l.evaluate row t = .ok false → (Condition.or l r).evaluate row t = r.evaluate row t) ∧
    (∀ e, l.evaluate row t = .error e → (Condition.and l r).evaluate row t = .error e) ∧
    (∀ e, l.evaluate row t = .error e → (Condition.or l r).evaluate row t = .error e) := by
  refine ⟨?_, ?_, ?_, ?_, ?_, ?_⟩
  · intro h; simp only [Condition.evaluate, h]
  · intro h; simp only [Condition.evaluate, h]
  · intro h; simp only [Condition.evaluate, h]
  · intro h; simp only [Condition.evaluate, h]
  · intro e h; simp only [Condition.evaluate, h]
  · intro e h; simp only [Condition.evaluate, h]

/-- Witness for C3 as amended: with a true left operand, an AND evaluates
to exactly what the right operand evaluates to. -/
theorem logicalEvaluation_semantics_witness :
    (Condition.and condTrue condTypeErr).evaluate [] abcT = condTypeErr.evaluate [] abcT :=
  (logicalEvaluation_semantics condTrue condTypeErr [] abcT).2.1 (by rfl)

/-- C4 counterexample: cross-tag equality does not raise; Value::operator==
on an Integer and a Text returns the boolean false (and the derived !=
returns true). -/
theorem crossTagEquality_returnsBool :
    Value.variantEq (Value.intV 1) (Value.strV "a") = false ∧
    (Value.intV 1 != Value.strV "a") = true :=
  ⟨rfl, rfl⟩

/-- C4 as amended: for values of differing tags, the spaceship ordering
(hence <, >, <=, >=) raises TypeMismatch, and every comparison operator
evaluated through ComparisonCondition raises TypeMismatch because the tag
guard precedes the operator; Value::operator== alone does not raise: it
returns false (no coercion, never true). -/
theorem crossTagComparison_raises (v w : Value) (h : v.getType ≠ w.getType) :
    v.spaceship w = .error "Cannot compare values of different types" ∧
    Value.variantEq v w = false ∧
    ∀ op, applyComparison op v w = .error "Cannot compare values of different types" := by
  cases v <;> cases w <;> simp [Value.getType] at h <;>
    exact ⟨rfl, rfl, fun _ => rfl⟩

/-- Witness for C4 as amended at a concrete Integer/Text pair. -/
theorem crossTagComparison_raises_witness :
    Value.spaceship (Value.intV 0) (Value.strV "")
        = .error "Cannot compare values of different types" ∧
    Value.variantEq (Value.intV 0) (Value.strV "") = false ∧
    ∀ op, applyComparison op (Value.intV 0) (Value.strV "")
        = .error "Cannot compare values of different types" :=
  crossTagComparison_raises (Value.intV 0) (Value.strV "") (by decide)

/-- C5.  AND binds tighter than OR, both left-associative, parentheses
override; on the Scenario C fixture row (a=1, b=9, c=9) the grouped and
ungrouped conditions disagree. -/
theorem conditionPrecedence :
    parseConditionText "a=1 OR b=2 AND c=3" = .ok (.or cmpA1 (.and cmpB2 cmpC3)) ∧
    parseConditionText "(a=1 OR b=2) AND c=3" = .ok (.and (.or cmpA1 cmpB2) cmpC3) ∧
    parseConditionText "a=1 AND b=2 AND c=3" = .ok (.and (.and cmpA1 cmpB2) cmpC3) ∧
    parseConditionText "a=1 OR b=2 OR c=3" = .ok (.or (.or cmpA1 cmpB2) cmpC3) ∧
    Condition.evaluate (.and (.or cmpA1 cmpB2) cmpC3) abcRow1 abcT = .ok false ∧
    Condition.evaluate (.or cmpA1 (.and cmpB2 cmpC3)) abcRow1 abcT = .ok true ∧
    Condition.evaluate (.and (.or cmpA1 cmpB2) cmpC3) abcRow2 abcT = .ok true ∧
    Condition.evaluate (.or cmpA1 (.and cmpB2 cmpC3)) abcRow2 abcT = .ok true := by
  refine ⟨?_, ?_, ?_, ?_, ?_, ?_, ?_, ?_⟩ <;> rfl

set_option maxRecDepth 8000 in
/-- C6.  Scenario D: the two-table inner join returns exactly one row,
["Alice", "Eng"]; Bob's row is absent. -/
theorem joinScenarioD :
    runSelect joinDB
        "SELECT employees.name, departments.name FROM employees INNER JOIN departments ON employees.dept_id = departments.id"
      = .ok [[Value.strV "Alice", Value.strV "Eng"]] := by
  rfl

/-- C7 counterexample: in the predicate-free selectRows overload an empty
column list is not treated as a wildcard; every row is projected to the
empty row instead of being returned whole. -/
theorem selectRows_empty_projectsNothing :
    Table.selectRows oneRowT [] = .ok [([] : Row)] ∧
    Table.selectRows oneRowT [] ≠ .ok oneRowT.rows := by
  constructor
  · rfl
  · decide

/-- C7 as amended: ["*"] returns the (filtered) rows whole in both
selectRows overloads; an empty column list returns the filtered rows whole
only in the predicate overload, while the predicate-free overload projects
each row onto zero columns; a requested name that is not a schema column
makes either overload raise (except through the wildcard paths). -/
theorem selectRowsProjection (t : Table) (cond : Row → Table → Bool) :
    t.selectRows ["*"] = .ok t.rows ∧
    t.selectRows [] = .ok (t.rows.map (fun _ => ([] : Row))) ∧
    t.selectRowsWhere ["*"] cond = .ok (t.rows.filter (fun r => cond r t)) ∧
    t.selectRowsWhere [] cond = .ok (t.rows.filter (fun r => cond r t)) ∧
    (∀ cols n, n ∈ cols → cols ≠ ["*"] → colIndex? t.schema n = none →
      isError (t.selectRows cols) = true) ∧
    (∀ cols n, n ∈ cols → cols ≠ ["*"] → cols ≠ [] → colIndex? t.schema n = none →
      isError (t.selectRowsWhere cols cond) = true) := by
  refine ⟨rfl, ?_, ?_, ?_, ?_, ?_⟩
  · show Table.selectRows t [] = _
    unfold Table.selectRows
    rw [if_neg (by decide)]
    exact projectRows_nil t.rows
  · rfl
  · rfl
  · intro cols n hmem hne hnone
    obtain ⟨e, he⟩ := resolveIndices_err hmem hnone
    unfold Table.selectRows
    have hbeq : (cols == ["*"]) = false := by
      rw [beq_eq_false_iff_ne]
      exact hne
    rw [if_neg (by simp [hbeq])]
    simp [he, isError]
  · intro cols n hmem hne hne0 hnone
    obtain ⟨e, he⟩ := resolveIndices_err hmem hnone
    unfold Table.selectRowsWhere
    have hbeq : (cols == ["*"]) = false := by
      rw [beq_eq_false_iff_ne]
      exact hne
    have hemp : cols.isEmpty = false := by
      cases cols with
      | nil => exact absurd rfl hne0
      | cons a l => rfl
    rw [if_neg (by simp [hbeq, hemp])]
    simp [he, isError]

/-- Witness for C7 as amended: the wildcard returns the single stored row
whole, and requesting an unknown column raises. -/
theorem selectRowsProjection_witness :
    Table.selectRows oneRowT ["*"] = .ok oneRowT.rows ∧
    isError (Table.selectRows oneRowT ["nope"]) = true :=
  ⟨(selectRowsProjection oneRowT (fun _ _ => true)).1,
   (selectRowsProjection oneRowT (fun _ _ => true)).2.2.2.2.1 ["nope"] "nope"
     (by decide) (by decide) (by rfl)⟩

/-- C8 counterexample: a deterministic predicate of (row, table) that reads
the table's row count is not idempotent under deleteRows: on the two-row
fixture the first call removes one row and the second call removes one
more, so the second call does not return 0. -/
theorem deleteRows_twice_counterexample :
    (twoRowT.deleteRows headSensitive).2 = 1 ∧
    ((twoRowT.deleteRows headSensitive).1.deleteRows headSensitive).2 = 1 := by
  constructor
  · rfl
  · rfl

/-- C8 as amended: for a predicate that depends on its table argument only
through the schema — as every predicate compiled from a Condition does —
deleting twice removes the same total as deleting once: the second call
removes 0 rows and leaves the rows unchanged. -/
theorem deleteRows_idempotent (t : Table) (cond : Row → Table → Bool)
    (hcond : ∀ r u, u.schema = t.schema → cond r u = cond r t) :
    ((t.deleteRows cond).1.deleteRows cond).2 = 0 ∧
    ((t.deleteRows cond).1.deleteRows cond).1 = (t.deleteRows cond).1 := by
  have hcond1 : ∀ r, cond r (t.deleteRows cond).1 = cond r t :=
    fun r => hcond r (t.deleteRows cond).1 rfl
  have hfilter : (t.deleteRows cond).1.rows.filter (fun r => !cond r (t.deleteRows cond).1)
      = (t.deleteRows cond).1.rows := by
    apply List.filter_eq_self.mpr
    intro r hr
    rw [hcond1]
    have hr2 : r ∈ t.rows.filter (fun x => !cond x t) := hr
    simpa using List.of_mem_filter hr2
  constructor
  · show (t.deleteRows cond).1.rows.length
        - ((t.deleteRows cond).1.rows.filter (fun r => !cond r (t.deleteRows cond).1)).length
        = 0
    rw [hfilter]
    exact Nat.sub_self _
  · show ({ (t.deleteRows cond).1 with
        rows := (t.deleteRows cond).1.rows.filter
          (fun r => !cond r (t.deleteRows cond).1) } : Table) = (t.deleteRows cond).1
    rw [hfilter]

/-- Witness for C8 as amended at a concrete table and schema-only
predicate. -/
theorem deleteRows_idempotent_witness :
    ((twoRowT.deleteRows (fun r _ => r == [Value.intV 1])).1.deleteRows
        (fun r _ => r == [Value.intV 1])).2 = 0 :=
  (deleteRows_idempotent twoRowT (fun r _ => r == [Value.intV 1]) (fun _ _ _ => rfl)).1

/-- C9 counterexample: the literal 3000000000 does not fit a C++ int, so
std::stoi throws and the lexer reports a lexical error instead of an
INTEGER token. -/
theorem bigLiteral_lexicalError :
    tokenize "3000000000" = .error "Invalid number: 3000000000" := by
  rfl

/-- C9 as amended: integer Values carry a C++ int, not a 64-bit integer;
an unsigned digit run parses exactly when its value is at most 2^31 - 1 =
2147483647, in which case the INTEGER token carries the value, and
otherwise scanNumber raises "Invalid number". -/
theorem integerLiteralRange :
    (∀ s : String, digitsToNat s ≤ 2147483647 →
      stoiDigits s = .ok (Int.ofNat (digitsToNat s))) ∧
    (∀ s : String, 2147483647 < digitsToNat s →
      stoiDigits s = .error ("Invalid number: " ++ s)) ∧
    tokenize "2147483647" = .ok [⟨.integer, .intV 2147483647⟩, ⟨.eof, .noneV⟩] ∧
    tokenize "3000000000" = .error "Invalid number: 3000000000" := by
  refine ⟨?_, ?_, ?_, ?_⟩
  · intro s h
    unfold stoiDigits
    rw [if_pos h]
  · intro s h
    unfold stoiDigits
    rw [if_neg (by omega)]
  · rfl
  · rfl

/-- Witness for C9 as amended at concrete in-range and out-of-range
literals. -/
theorem integerLiteralRange_witness :
    stoiDigits "42" = .ok (Int.ofNat (digitsToNat "42")) ∧
    stoiDigits "3000000000" = .error ("Invalid number: " ++ "3000000000") :=
  ⟨integerLiteralRange.1 "42" (by decide),
   integerLiteralRange.2.1 "3000000000" (by decide)⟩

/-- C10.  Database::hasTable never raises: a name that fails validation is
reported as false, while Database::getTable on the same name propagates the
name-validation error. -/
theorem hasTable_total (db : Database) (name e : String)
    (h : validateTableName name = .error e) :
    db.hasTable name = false ∧ db.getTable name = .error e := by
  constructor
  · unfold Database.hasTable
    rw [h]
  · unfold Database.getTable
    rw [h]

/-- Witness for C10: the digit-leading name "1abc" is reported absent by
hasTable while getTable raises the validation error. -/
theorem hasTable_total_witness :
    Database.hasTable ⟨"TinyDB", []⟩ "1abc" = false ∧
    Database.getTable ⟨"TinyDB", []⟩ "1abc"
      = .error "Database Error: Table name must start with a letter or underscore" :=
  hasTable_total ⟨"TinyDB", []⟩ "1abc"
    "Database Error: Table name must start with a letter or underscore" (by rfl)

end TinyDB
